import Mathlib

set_option linter.unusedVariables false

/-! Verification of the iRODS/Django consistency-reconciliation engine
    (`hs_core/management/commands/check_irods_files.py`).

    Paths are modelled as lists of characters (`PStr`); the remote storage
    tier is modelled as a record of pure functions (`Storage`): `stExists`
    mirrors `IrodsStorage.exists`, and `listdir` returning `none` mirrors a
    `SessionException` raised by `IrodsStorage.listdir`. -/

abbrev PStr := List Char

def pstr (s : String) : PStr := s.data

/-- Clone of `posixpath` behaviour: does the path start with `'/'`? -/
def startsWithSlash : PStr → Bool
  | [] => false
  | c :: _ => c = '/'

/-- Clone of `posixpath` behaviour: does the path end with `'/'`? -/
def endsWithSlash (p : PStr) : Bool := startsWithSlash p.reverse

/-- Python `str.rstrip('/')`. -/
def rstripSlash (p : PStr) : PStr := (p.reverse.dropWhile (fun c => c = '/')).reverse

/-- Clone of `os.path.join` for exactly two components (posixpath.join). -/
def pjoin2 (path b : PStr) : PStr :=
  if startsWithSlash b then b
  else if path = [] ∨ endsWithSlash path then path ++ b
  else path ++ '/' :: b

/-- Clone of `os.path.join(a, *ps)` (posixpath.join). -/
def pjoin (a : PStr) (ps : List PStr) : PStr := ps.foldl pjoin2 a

/-- Clone of `os.path.split` (posixpath.split): split at the last slash, stripping
    trailing slashes from the head unless it is empty or all slashes. -/
def psplit (p : PStr) : PStr × PStr :=
  let base := (p.reverse.takeWhile (fun c => c ≠ '/')).reverse
  let head := p.take (p.length - base.length)
  if head ≠ [] ∧ ¬ head.all (fun c => c = '/') then (rstripSlash head, base)
  else (head, base)

example : pjoin (pstr "ab") [pstr "c", pstr "d"] = pstr "ab/c/d" := by decide
example : psplit (pstr "a/b/c") = (pstr "a/b", pstr "c") := by decide
example : psplit (pstr "abc") = (pstr "", pstr "abc") := by decide
example : psplit (pstr "/x") = (pstr "/", pstr "x") := by decide
example : pjoin (pstr "a") [pstr "/x"] = pstr "/x" := by decide

/-- Boolean test that `p` is a (list) prefix of `s`; Python `s.startswith(p)`. -/
def pfxOf : PStr → PStr → Bool
  | [], _ => true
  | _ :: _, [] => false
  | a :: as, b :: bs => a = b && pfxOf as bs

example : pfxOf (pstr "data/") (pstr "data/contents") = true := by decide
example : pfxOf (pstr "data/") (pstr "dat") = false := by decide

/-! ## Data model

`Resource` mirrors the fields of `BaseResource` that the checker reads:
`short_id`, `resource_federation_path` (Django `None` or a string),
`resource_type`, and the metadata title used by the summary diagnostic. -/

structure Resource where
  short_id : PStr
  resource_federation_path : Option PStr
  resource_type : PStr
  title : PStr

/-- Clone of `is_federated`: `resource.resource_federation_path is not None
    and resource.resource_federation_path != ''`. -/
def is_federated (r : Resource) : Bool :=
  match r.resource_federation_path with
  | none => false
  | some fp => fp ≠ []

/-- Clone of `root_path`. -/
def root_path (r : Resource) : PStr :=
  if is_federated r then pjoin (r.resource_federation_path.getD []) [r.short_id]
  else r.short_id

/-- Clone of `file_path`: `os.path.join(root_path(resource), "data", "contents")`. -/
def file_path (r : Resource) : PStr :=
  pjoin (root_path r) [pstr "data", pstr "contents"]

/-- Clone of `get_resource_file_path`. -/
def get_resource_file_path (r : Resource) (filename : PStr) (folder : Option PStr) : PStr :=
  match folder with
  | some f => pjoin (file_path r) [f, filename]
  | none => pjoin (file_path r) [filename]

/-! ## Storage Gateway model

`stExists` mirrors `IrodsStorage.exists`; `listdir` mirrors
`IrodsStorage.listdir`, returning `none` when a `SessionException` is raised
and otherwise `(subdirectories, files)`.  The deployment holds two storage
sessions (`IrodsStorage("federated")` vs `IrodsStorage()`) plus the
`settings.REMOTE_USE_IRODS` flag. -/

structure Storage where
  stExists : PStr → Bool
  listdir : PStr → Option (List PStr × List PStr)

structure Env where
  fedStorage : Storage
  localStorage : Storage
  remote_use_irods : Bool

/-- Clone of `get_irods_storage`. -/
def get_irods_storage (env : Env) (r : Resource) : Storage :=
  if is_federated r then env.fedStorage else env.localStorage

/-- The `ValidationError` messages that `resource_path_is_acceptable` and
    `get_path_from_short_path` can raise. -/
inductive VErr where
  | federatedPathDoesNotExist
  | malformedFederatedPath
  | localPathDoesNotExist
  | shortPathDoesNotExist
deriving DecidableEq, Repr

/-- The tail of `resource_path_is_acceptable` (source lines 200-216): split
    the remaining `folder/file` string and re-check existence of the
    reconstructed absolute path. -/
def rpia_finish (env : Env) (resource : Resource) (test_exists : Bool) (relpath : PStr) :
    Except VErr (Option PStr × PStr) :=
  let storage := get_irods_storage env resource
  if '/' ∈ relpath then
    let fb := psplit relpath
    let abspath := get_resource_file_path resource fb.2 (some fb.1)
    if test_exists && !(storage.stExists abspath) then
      Except.error VErr.localPathDoesNotExist
    else Except.ok (some fb.1, fb.2)
  else
    let abspath := get_resource_file_path resource relpath none
    if test_exists && !(storage.stExists abspath) then
      Except.error VErr.localPathDoesNotExist
    else Except.ok (none, relpath)

/-- Clone of `resource_path_is_acceptable`.  A `ValidationError` raised in
    Python is an `Except.error`. -/
def resource_path_is_acceptable (env : Env) (resource : Resource) (path : PStr)
    (test_exists : Bool) : Except VErr (Option PStr × PStr) :=
  let storage := get_irods_storage env resource
  let locpath := pjoin resource.short_id [pstr "data", pstr "contents"] ++ ['/']
  let fedpair : Bool × PStr :=
    match resource.resource_federation_path with
    | none => (false, [])
    | some fp => (fp ≠ [], fp)
  if fedpair.1 && pfxOf (fedpair.2 ++ ['/']) path then
    if test_exists && !(storage.stExists path) then
      Except.error VErr.federatedPathDoesNotExist
    else
      let relpath := path.drop (fedpair.2 ++ ['/']).length
      if pfxOf locpath relpath then
        rpia_finish env resource test_exists (relpath.drop locpath.length)
      else Except.error VErr.malformedFederatedPath
  else if pfxOf locpath path then
    if test_exists && !(storage.stExists path) then
      Except.error VErr.localPathDoesNotExist
    else rpia_finish env resource test_exists (path.drop locpath.length)
  else rpia_finish env resource test_exists path

/-- Clone of `get_path_from_storage_path` (`path_is_acceptable` then
    `get_path`). -/
def get_path_from_storage_path (env : Env) (resource : Resource) (path : PStr)
    (test_exists : Bool) : Except VErr PStr :=
  match resource_path_is_acceptable env resource path test_exists with
  | Except.error e => Except.error e
  | Except.ok fb => Except.ok (get_resource_file_path resource fb.2 fb.1)

/-- Clone of `get_path_from_short_path`. -/
def get_path_from_short_path (env : Env) (resource : Resource) (path : PStr)
    (test_exists : Bool) : Except VErr PStr :=
  let fb := psplit path
  let folder : Option PStr := if fb.1 = [] then none else some fb.1
  let p := get_resource_file_path resource fb.2 folder
  if test_exists && !((get_irods_storage env resource).stExists p) then
    Except.error VErr.shortPathDoesNotExist
  else Except.ok p

/-! ## Diagnostic events

One constructor per distinct `print`/log format string in the source, with
the formatted arguments as payload.  `print` calls inside
`get_effective_path` always go to stdout; the checker routes its own
messages to sinks according to its flags. -/

inductive Msg where
  | errMoreThanOneName
  | nameItem (n : PStr)
  | errUnfedFileForFed (sid rtype name : PStr)
  | errExistingPathNotConformant (path sid rtype : PStr)
  | infoStrippingDataContents (path : PStr)
  | warnDeclaredFolderNotPathFolder (ffolder folder : Option PStr) (sid rtype : PStr)
  | infoAssumingFolder (ffolder : Option PStr)
  | errInferredPathDoesNotExist (path : PStr)
  | infoFoundUnqualifiedUnfed (path : PStr) (ffolder : Option PStr) (inferred : PStr)
  | errFedFileForUnfed (sid rtype path : PStr)
  | errUnfedPathForFed (path sid rtype : PStr)
  | errNonConformantFullPath (path sid rtype : PStr)
  | warnExtraDataHeader (path sid rtype : PStr)
  | errInferredFolderNeRecord (folder : PStr) (ffolder : Option PStr)
  | infoFoundUnqualifiedFed (path : PStr) (ffolder : Option PStr) (inferred : PStr)
  | warnFedNameOrPathForUnfed (sid rtype path : PStr)
  | infoDataContentsStrippedFedNameOrPath (path sid rtype : PStr)
  | errInferredPathDoesNotExistQ (path : PStr)
  | errNoValidFileName (sid rtype : PStr)
  | infoFederationPfx (fedpath : PStr)
  | infoSkipFederated (sid : PStr)
  | errDjangoFileDoesNotExist (orig folder path : Option PStr)
  | errIrodsFileNotInDjango (fullpath : PStr)
  | errListingFailed (dir : PStr)
  | errRootDoesNotExist (sid : PStr)
  | affectedResource (sid rtype title : PStr)
deriving DecidableEq, Repr

/-- Result of `get_effective_path`: the `return None` at the
    more-than-one-name branch (`bare`) versus the final
    `return inferred_path, file_file_folder, orig_path` triple. -/
inductive EffPathResult where
  | bare
  | triple (inferred : Option PStr) (folder : Option PStr) (orig : Option PStr)
deriving DecidableEq, Repr

/-- The sentinel normalization at the top of `get_effective_path`: the empty
    string and the literal string `"None"` are converted to `None`. -/
def normalizeName : Option PStr → Option PStr
  | none => none
  | some s => if s = [] ∨ s = pstr "None" then none else some s

/-- A `ResourceFile` row: `resource_file.name`, `fed_resource_file.name`,
    `fed_resource_file_name_or_path`, `file_folder`.  Each is `none` when the
    Django value is `None`. -/
structure RFile where
  resource_file_name : Option PStr
  fed_resource_file_name : Option PStr
  fed_resource_file_name_or_path : Option PStr
  file_folder : Option PStr

/-- Part 1 of `get_effective_path` (source lines 274-323): the unfederated
    `resource_file.name` branch.  Returns the emitted diagnostics and the
    updated `(inferred_path, orig_path, file_file_folder)` state. -/
def gepPart1 (env : Env) (resource : Resource) (n1 : Option PStr)
    (ffolder0 : Option PStr) : List Msg × Option PStr × Option PStr × Option PStr :=
  let istorage := get_irods_storage env resource
  match n1 with
  | none => ([], none, none, ffolder0)
  | some path =>
    if is_federated resource then
      ([Msg.errUnfedFileForFed resource.short_id resource.resource_type path],
       none, some path, ffolder0)
    else if pfxOf (file_path resource) path then
      match resource_path_is_acceptable env resource path true with
      | Except.ok _ => ([], some path, some path, ffolder0)
      | Except.error _ =>
        ([Msg.errExistingPathNotConformant path resource.short_id resource.resource_type],
         none, some path, ffolder0)
    else
      let stripped := pfxOf (pstr "data/contents/") path
      let path2 := if stripped then path.drop (pstr "data/contents/").length else path
      let ev1 := if stripped then [Msg.infoStrippingDataContents path] else []
      let fb := psplit path2
      let folder : Option PStr := if fb.1 = [] then none else some fb.1
      let ev2 :=
        if folder ≠ none ∧ ffolder0 ≠ folder then
          [Msg.warnDeclaredFolderNotPathFolder ffolder0 folder
             resource.short_id resource.resource_type,
           Msg.infoAssumingFolder ffolder0]
        else []
      let shortp := match ffolder0 with
        | none => fb.2
        | some ff => pjoin ff [fb.2]
      match get_path_from_short_path env resource shortp false with
      | Except.error _ => (ev1 ++ ev2, none, some path, ffolder0) -- unreachable: test_exists=False
      | Except.ok ip =>
        let ev3 :=
          if !(istorage.stExists ip) then [Msg.errInferredPathDoesNotExist ip]
          else [Msg.infoFoundUnqualifiedUnfed path2 ffolder0 ip]
        (ev1 ++ ev2 ++ ev3, some ip, some path, ffolder0)

/-- Part 2 of `get_effective_path` (source lines 325-403): the federated
    `fed_resource_file.name` branch, or else the
    `fed_resource_file_name_or_path` branch.  `inf0`, `orig0`, `ff0` are the
    state left by part 1. -/
def gepPart2 (env : Env) (resource : Resource) (n2 n3 : Option PStr)
    (inf0 orig0 ff0 : Option PStr) :
    List Msg × Except VErr (Option PStr × Option PStr × Option PStr) :=
  let istorage := get_irods_storage env resource
  match n2 with
  | some path =>
    let ev0 := if !(is_federated resource) then
        [Msg.errFedFileForUnfed resource.short_id resource.resource_type path]
      else []
    -- NOTE: the source uses `if`, not `elif`, after the mismatch error,
    -- so processing continues even for an unfederated resource.
    if pfxOf (file_path resource) path then
      match resource_path_is_acceptable env resource path true with
      | Except.ok fb =>
        let folder := if fb.1 = some [] then none else fb.1
        if folder ≠ none ∧ ff0 ≠ folder then
          (ev0 ++ [Msg.warnDeclaredFolderNotPathFolder ff0 folder
                     resource.short_id resource.resource_type],
           Except.ok (some path, some path, folder))
        else (ev0, Except.ok (some path, some path, ff0))
      | Except.error _ =>
        (ev0 ++ [Msg.errExistingPathNotConformant path
                   resource.short_id resource.resource_type],
         Except.ok (inf0, some path, ff0))
    else if pfxOf resource.short_id path then
      (ev0 ++ [Msg.errUnfedPathForFed path resource.short_id resource.resource_type],
       Except.ok (inf0, some path, ff0))
    else if startsWithSlash path then
      (ev0 ++ [Msg.errNonConformantFullPath path resource.short_id resource.resource_type],
       Except.ok (inf0, some path, ff0))
    else
      let stripped := pfxOf (pstr "data/contents/") path
      let path2 := if stripped then path.drop (pstr "data/contents/").length else path
      let ev1 := if stripped then
          [Msg.warnExtraDataHeader path resource.short_id resource.resource_type]
        else []
      let fb := psplit path2
      -- `if folder is not None and folder != file_file_folder` (folder is
      -- always a str here, so only the inequality matters)
      let ev2 := if ff0 ≠ some fb.1 then
          [Msg.errInferredFolderNeRecord fb.1 ff0]
        else []
      let ev3 := [Msg.infoAssumingFolder ff0]
      let shortp := match ff0 with
        | none => fb.2
        | some ff => pjoin ff [fb.2]
      match get_path_from_short_path env resource shortp false with
      | Except.error e => (ev0 ++ ev1 ++ ev2 ++ ev3, Except.error e) -- unreachable
      | Except.ok ip =>
        let ev4 :=
          if !(istorage.stExists ip) then [Msg.errInferredPathDoesNotExist ip]
          else [Msg.infoFoundUnqualifiedFed path2 ff0 ip]
        (ev0 ++ ev1 ++ ev2 ++ ev3 ++ ev4, Except.ok (some ip, some path, ff0))
  | none =>
    match n3 with
    | some path =>
      let ev0 := if !(is_federated resource) then
          [Msg.warnFedNameOrPathForUnfed resource.short_id resource.resource_type path]
        else []
      let stripped := pfxOf (pstr "data/contents/") path
      let path2 := if stripped then path.drop (pstr "data/contents/").length else path
      let ev1 := if stripped then
          [Msg.infoDataContentsStrippedFedNameOrPath path2
             resource.short_id resource.resource_type]
        else []
      if pfxOf (file_path resource) path2 then
        match get_path_from_storage_path env resource path2 false with
        | Except.ok ip => (ev0 ++ ev1, Except.ok (some ip, some path, ff0))
        | Except.error e => (ev0 ++ ev1, Except.error e) -- propagates uncaught
      else
        match get_path_from_short_path env resource path2 false with
        | Except.ok ip => (ev0 ++ ev1, Except.ok (some ip, some path, ff0))
        | Except.error e => (ev0 ++ ev1, Except.error e) -- unreachable
    | none => ([], Except.ok (inf0, orig0, ff0))

/-- The final guard of `get_effective_path` (source lines 405-418):
    re-verify existence of the inferred path and report the no-valid-name
    case. -/
def gepFinal (env : Env) (resource : Resource) (inferred : Option PStr) : List Msg :=
  let istorage := get_irods_storage env resource
  (match inferred with
   | some ip =>
     if !(istorage.stExists ip) then [Msg.errInferredPathDoesNotExistQ ip] else []
   | none => []) ++
  (if inferred = none then
     [Msg.errNoValidFileName resource.short_id resource.resource_type]
   else [])

/-- Body of `get_effective_path` after the three name fields have been
    normalized (`n1` = local name, `n2` = federated name, `n3` =
    name-or-path) and `file_folder` read.  Returns the emitted diagnostics
    (in print order) and either the result or an uncaught `ValidationError`.
    The diagnostics already printed before a raise are kept. -/
def gepCore (env : Env) (resource : Resource) (n1 n2 n3 : Option PStr)
    (ffolder0 : Option PStr) : List Msg × Except VErr EffPathResult :=
  let nnames := [n1, n2, n3].filterMap id
  if 1 < nnames.length then
    (Msg.errMoreThanOneName :: nnames.map Msg.nameItem, Except.ok EffPathResult.bare)
  else
    let s1 := gepPart1 env resource n1 ffolder0
    let s2 := gepPart2 env resource n2 n3 s1.2.1 s1.2.2.1 s1.2.2.2
    match s2.2 with
    | Except.error e => (s1.1 ++ s2.1, Except.error e)
    | Except.ok fin =>
      (s1.1 ++ s2.1 ++ gepFinal env resource fin.1,
       Except.ok (EffPathResult.triple fin.1 fin.2.2 fin.2.1))

/-- Clone of `get_effective_path`: sentinel normalization of the three name
    fields, then `gepCore`. -/
def get_effective_path (env : Env) (resource : Resource) (file : RFile) :
    List Msg × Except VErr EffPathResult :=
  gepCore env resource (normalizeName file.resource_file_name)
    (normalizeName file.fed_resource_file_name)
    (normalizeName file.fed_resource_file_name_or_path) file.file_folder

/-! ## Reconciliation Engine

`resource_check_irods_files` routes each diagnostic to up to three sinks
(stdout echo, Django log, returned list) accumulated in `St`.  A raised
exception is modelled by `Abort`: `validation` for the opt-in
`stop_on_error` raise, `verr` for an uncaught `ValidationError` that
propagates out of `get_effective_path`, and `typeError` for the Python
`TypeError` caused by 3-way unpacking of the bare `None` that
`get_effective_path` returns in the more-than-one-name case. -/

structure Flags where
  stop_on_error : Bool
  log_errors : Bool
  echo_errors : Bool
  return_errors : Bool
deriving DecidableEq, Repr

structure St where
  stdout : List Msg
  log : List Msg
  errors : List Msg
  ecount : Nat
deriving DecidableEq, Repr

def St.empty : St := ⟨[], [], [], 0⟩

inductive Abort where
  | validation (m : Msg)
  | verr (e : VErr)
  | typeError
deriving DecidableEq, Repr

/-- One error site: `ecount += 1`, echo, log, collect (lines 465-473 etc.). -/
def record (flags : Flags) (m : Msg) (st : St) : St :=
  { stdout := st.stdout ++ if flags.echo_errors then [m] else [],
    log := st.log ++ if flags.log_errors then [m] else [],
    errors := st.errors ++ if flags.return_errors then [m] else [],
    ecount := st.ecount + 1 }

/-- An error site followed by `if stop_on_error: raise ValidationError(msg)`. -/
def recordStop (flags : Flags) (m : Msg) (st : St) : St × Option Abort :=
  (record flags m st, if flags.stop_on_error then some (Abort.validation m) else none)

/-- An informational message (echo + `logger.info`), no error count. -/
def emitInfo (flags : Flags) (m : Msg) (st : St) : St :=
  { st with stdout := st.stdout ++ if flags.echo_errors then [m] else [],
            log := st.log ++ if flags.log_errors then [m] else [] }

/-- The affected-resource summary (lines 505-513): all three sinks but no
    error-count increment. -/
def emitSummary (flags : Flags) (m : Msg) (st : St) : St :=
  { st with stdout := st.stdout ++ if flags.echo_errors then [m] else [],
            log := st.log ++ if flags.log_errors then [m] else [],
            errors := st.errors ++ if flags.return_errors then [m] else [] }

/-- Step 1 (lines 459-475): for each file record, infer its path, collect it
    into `all_paths`, and report records that resolve to `None` or to a path
    that does not exist.  The accumulator carries the sink state, the
    `all_paths` set (as a list) and a pending abort. -/
def check_step1 (env : Env) (res : Resource) (flags : Flags) :
    List RFile → St × List PStr × Option Abort → St × List PStr × Option Abort
  | [], acc => acc
  | f :: rest, (st, ap, none) =>
    let er := get_effective_path env res f
    let st1 := { st with stdout := st.stdout ++ er.1 }
    match er.2 with
    | Except.error e => (st1, ap, some (Abort.verr e))
    | Except.ok EffPathResult.bare => (st1, ap, some Abort.typeError)
    | Except.ok (EffPathResult.triple pathOpt folder orig) =>
      let ap2 := match pathOpt with
        | some p => ap ++ [p]
        | none => ap
      let bad := match pathOpt with
        | none => true
        | some p => !((get_irods_storage env res).stExists p)
      if bad then
        let ra := recordStop flags (Msg.errDjangoFileDoesNotExist orig folder pathOpt) st1
        match ra.2 with
        | some a => (ra.1, ap2, some a)
        | none => check_step1 env res flags rest (ra.1, ap2, none)
      else check_step1 env res flags rest (st1, ap2, none)
  | _ :: _, (st, ap, some a) => (st, ap, some a)

/-- The file loop of `__resource_check_irods_directory` (lines 537-550). -/
def walkFiles (flags : Flags) (ap : List PStr) (dir : PStr) :
    List PStr → St × Option Abort → St × Option Abort
  | [], acc => acc
  | fname :: rest, (st, none) =>
    let fullpath := pjoin dir [fname]
    if fullpath ∈ ap then walkFiles flags ap dir rest (st, none)
    else
      let ra := recordStop flags (Msg.errIrodsFileNotInDjango fullpath) st
      match ra.2 with
      | some a => (ra.1, some a)
      | none => walkFiles flags ap dir rest (ra.1, none)
  | _ :: _, (st, some a) => (st, some a)

/-- Clone of `__resource_check_irods_directory` (Step 2), with a fuel bound
    on the recursion depth.  `listdir dir = none` is the `SessionException`
    branch (lines 562-572); subdirectories are walked depth-first after the
    files of the current level. -/
def walkDir (env : Env) (self : Resource) (flags : Flags) (ap : List PStr) :
    Nat → PStr → St → St × Option Abort
  | 0, _, st => (st, none)
  | fuel + 1, dir, st =>
    match (get_irods_storage env self).listdir dir with
    | none => recordStop flags (Msg.errListingFailed dir) st
    | some listing =>
      match walkFiles flags ap dir listing.2 (st, none) with
      | (st1, some a) => (st1, some a)
      | (st1, none) =>
        listing.1.foldl (fun acc dname =>
          match acc with
          | (st2, some a) => (st2, some a)
          | (st2, none) => walkDir env self flags ap fuel (pjoin dir [dname]) st2)
          (st1, none)

/-- A checked resource: the `BaseResource` fields plus its `files` queryset. -/
structure CResource extends Resource where
  files : List RFile

/-- Steps 1-2 of `resource_check_irods_files` (lines 439-488), including the
    federation-prefix message and the skip of federated resources when
    `settings.REMOTE_USE_IRODS` is unset. -/
def check_step12 (env : Env) (self : CResource) (flags : Flags) (fuel : Nat) :
    St × Option Abort :=
  let st1 := if is_federated self.toResource then
      emitInfo flags (Msg.infoFederationPfx (self.resource_federation_path.getD []))
        St.empty
    else St.empty
  if is_federated self.toResource ∧ env.remote_use_irods = false then
    (emitInfo flags (Msg.infoSkipFederated self.short_id) st1, none)
  else
    match check_step1 env self.toResource flags self.files (st1, [], none) with
    | (st2, _, some a) => (st2, some a)
    | (st2, ap, none) => walkDir env self.toResource flags ap fuel (file_path self.toResource) st2

/-- The root path checked by Step 3 (lines 491-494). -/
def rpath_of (r : Resource) : PStr :=
  if is_federated r then pjoin (r.resource_federation_path.getD []) [r.short_id]
  else r.short_id

instance exceptDecEq {ε α : Type} [DecidableEq ε] [DecidableEq α] : DecidableEq (Except ε α)
  | Except.ok a, Except.ok b =>
    if h : a = b then Decidable.isTrue (congrArg Except.ok h)
    else Decidable.isFalse (fun he => h (Except.ok.inj he))
  | Except.error a, Except.error b =>
    if h : a = b then Decidable.isTrue (congrArg Except.error h)
    else Decidable.isFalse (fun he => h (Except.error.inj he))
  | Except.ok _, Except.error _ => Decidable.isFalse (fun he => Except.noConfusion he)
  | Except.error _, Except.ok _ => Decidable.isFalse (fun he => Except.noConfusion he)

/-- Outcome of one full `resource_check_irods_files` call: the stdout and
    log traces, and either the returned `(errors, ecount)` pair or the
    exception that propagated. -/
structure CheckRun where
  stdout : List Msg
  log : List Msg
  result : Except Abort (List Msg × Nat)
deriving DecidableEq, Repr

/-- Clone of `resource_check_irods_files`: Steps 1-2, then Step 3 (root
    existence, lines 490-503), then the affected-resource summary
    (lines 505-513). -/
def resource_check_irods_files (env : Env) (self : CResource) (flags : Flags)
    (fuel : Nat) : CheckRun :=
  match check_step12 env self flags fuel with
  | (st, some a) => ⟨st.stdout, st.log, Except.error a⟩
  | (st, none) =>
    let st3 := if !((get_irods_storage env self.toResource).stExists (rpath_of self.toResource))
      then record flags (Msg.errRootDoesNotExist self.short_id) st
      else st
    let st4 := if 0 < st3.ecount then
        emitSummary flags (Msg.affectedResource self.short_id self.resource_type self.title) st3
      else st3
    ⟨st4.stdout, st4.log, Except.ok (st4.errors, st4.ecount)⟩

/-! ## Path algebra

Lemmas about `pfxOf`, `psplit`, `pjoin2` and the canonical-path helpers,
used to settle the Path Resolver round-trip (C7). -/

lemma pfxOf_append (xs ys : PStr) : pfxOf xs (xs ++ ys) = true := by
  induction xs with
  | nil => rfl
  | cons a as ih => simpa [pfxOf] using ih

lemma startsWithSlash_append (u v : PStr) (hu : u ≠ []) :
    startsWithSlash (u ++ v) = startsWithSlash u := by
  cases u with
  | nil => exact absurd rfl hu
  | cons c cs => rfl

lemma endsWithSlash_append (x y : PStr) (hy : y ≠ []) :
    endsWithSlash (x ++ y) = endsWithSlash y := by
  unfold endsWithSlash
  rw [List.reverse_append, startsWithSlash_append _ _ (by simpa using hy)]

lemma startsWithSlash_false_of_not_mem (l : PStr) (h : '/' ∉ l) :
    startsWithSlash l = false := by
  cases l with
  | nil => rfl
  | cons c cs =>
    have hc : c ≠ '/' := fun he => h (he ▸ List.mem_cons_self c cs)
    simp [startsWithSlash, hc]

lemma endsWithSlash_false_of_not_mem (l : PStr) (h : '/' ∉ l) :
    endsWithSlash l = false := by
  unfold endsWithSlash
  exact startsWithSlash_false_of_not_mem _ (by simpa using h)

lemma pjoin2_eq (a b : PStr) (ha : a ≠ []) (hae : endsWithSlash a = false)
    (hb : startsWithSlash b = false) : pjoin2 a b = a ++ '/' :: b := by
  simp [pjoin2, hb, ha, hae]

lemma pjoin2_ne_nil (x b : PStr) (hb : b ≠ []) : pjoin2 x b ≠ [] := by
  unfold pjoin2
  split
  · exact hb
  · split
    · simp [hb]
    · simp

lemma pjoin2_not_endsSlash (x b : PStr) (hb : b ≠ []) (hbe : endsWithSlash b = false) :
    endsWithSlash (pjoin2 x b) = false := by
  unfold pjoin2
  split
  · exact hbe
  · split
    · rw [endsWithSlash_append _ _ hb]; exact hbe
    · rw [show x ++ '/' :: b = x ++ ('/' :: b) from rfl,
          endsWithSlash_append _ _ (by simp),
          show ('/' :: b : PStr) = ['/'] ++ b from rfl,
          endsWithSlash_append _ _ hb]
      exact hbe

lemma file_path_eq (r : Resource) :
    file_path r = pjoin2 (pjoin2 (root_path r) (pstr "data")) (pstr "contents") := rfl

lemma file_path_ne_nil (r : Resource) : file_path r ≠ [] := by
  rw [file_path_eq]
  exact pjoin2_ne_nil _ _ (by decide)

lemma file_path_not_endsSlash (r : Resource) : endsWithSlash (file_path r) = false := by
  rw [file_path_eq]
  exact pjoin2_not_endsSlash _ _ (by decide) (by decide)

lemma takeWhile_append_stop (p : Char → Bool) (xs : List Char) (y : Char) (ys : List Char)
    (hxs : ∀ x ∈ xs, p x = true) (hy : p y = false) :
    (xs ++ y :: ys).takeWhile p = xs := by
  induction xs with
  | nil => simp [List.takeWhile_cons, hy]
  | cons a as ih =>
    have ha : p a = true := hxs a (List.mem_cons_self a as)
    simp only [List.cons_append, List.takeWhile_cons, ha, if_true]
    rw [ih (fun x hx => hxs x (List.mem_cons_of_mem a hx))]

lemma dropWhile_of_head_false (p : Char → Bool) (l : List Char)
    (h : ∀ c cs, l = c :: cs → p c = false) : l.dropWhile p = l := by
  cases l with
  | nil => rfl
  | cons c cs => simp [List.dropWhile_cons, h c cs rfl]

lemma rstripSlash_append_slash (d : PStr) (hde : endsWithSlash d = false) :
    rstripSlash (d ++ ['/']) = d := by
  unfold rstripSlash
  rw [List.reverse_append]
  have h1 : (['/'].reverse ++ d.reverse : List Char) = '/' :: d.reverse := rfl
  rw [h1]
  have h2 : (('/' :: d.reverse : List Char).dropWhile fun c => c = '/') =
      (d.reverse.dropWhile fun c => c = '/') := by
    simp [List.dropWhile_cons]
  have hf : ∀ c cs, d.reverse = c :: cs → (decide (c = '/')) = false := by
    intro c cs hc
    unfold endsWithSlash startsWithSlash at hde
    rw [hc] at hde
    simpa using hde
  rw [h2, dropWhile_of_head_false _ _ hf, List.reverse_reverse]

/-- Behaviour of `os.path.split` on a well-formed `folder/base` pair. -/
lemma psplit_append (d b : PStr) (hb : '/' ∉ b) (hd : d ≠ [])
    (hds : startsWithSlash d = false) (hde : endsWithSlash d = false) :
    psplit (d ++ '/' :: b) = (d, b) := by
  unfold psplit
  have hrev : (d ++ '/' :: b).reverse = b.reverse ++ '/' :: d.reverse := by
    rw [show (d ++ '/' :: b : PStr) = d ++ ['/'] ++ b by simp, List.reverse_append,
        List.reverse_append]
    simp
  have htake : ((d ++ '/' :: b).reverse.takeWhile fun c => decide (c ≠ '/')) = b.reverse := by
    rw [hrev]
    refine takeWhile_append_stop _ _ _ _ (fun x hx => ?_) (by simp)
    have hxb : x ∈ b := List.mem_reverse.mp hx
    have hxs : x ≠ '/' := fun he => hb (he ▸ hxb)
    simp [hxs]
  dsimp only
  rw [htake, List.reverse_reverse]
  have hlen : (d ++ '/' :: b).length - b.length = d.length + 1 := by
    simp only [List.length_append, List.length_cons]
    omega
  have htk : (d ++ '/' :: b).take (d.length + 1) = d ++ ['/'] := by
    rw [show (d ++ '/' :: b : PStr) = d ++ ['/'] ++ b by simp]
    have h5 : (d ++ ['/'] : PStr).length = d.length + 1 := by simp
    rw [← h5, List.take_left]
  rw [hlen, htk]
  have hne : (d ++ ['/'] : PStr) ≠ [] := by simp
  have hall : ¬ ((d ++ ['/'] : PStr).all (fun c => c = '/')) = true := by
    intro hal
    rcases d with _ | ⟨c, cs⟩
    · exact hd rfl
    · have hmem := (List.all_eq_true.mp hal) c (by simp)
      have hc : c = '/' := by simpa using hmem
      rw [hc] at hds
      simp [startsWithSlash] at hds
  rw [if_pos ⟨hne, hall⟩, rstripSlash_append_slash d hde]

lemma rebuild_no_folder (r : Resource) (b : PStr) (hbs : startsWithSlash b = false) :
    get_resource_file_path r b none = file_path r ++ '/' :: b := by
  show pjoin2 (file_path r) b = _
  exact pjoin2_eq _ _ (file_path_ne_nil r) (file_path_not_endsSlash r) hbs

lemma rebuild_with_folder (r : Resource) (d b : PStr)
    (hds : startsWithSlash d = false) (hde : endsWithSlash d = false) (hdn : d ≠ [])
    (hbs : startsWithSlash b = false) :
    get_resource_file_path r b (some d) = file_path r ++ '/' :: (d ++ '/' :: b) := by
  show pjoin2 (pjoin2 (file_path r) d) b = _
  have h1 : pjoin2 (file_path r) d = file_path r ++ '/' :: d :=
    pjoin2_eq _ _ (file_path_ne_nil r) (file_path_not_endsSlash r) hds
  have h2 : pjoin2 (file_path r ++ '/' :: d) b = (file_path r ++ '/' :: d) ++ '/' :: b := by
    apply pjoin2_eq
    · simp
    · rw [show (file_path r ++ '/' :: d : PStr) = file_path r ++ ('/' :: d) from rfl,
          endsWithSlash_append _ _ (by simp),
          show ('/' :: d : PStr) = ['/'] ++ d from rfl,
          endsWithSlash_append _ _ hdn]
      exact hde
    · exact hbs
  rw [h1, h2]
  simp

/-- The shape of canonical relative tails well-formed in the sense of the
    data model: `filename` or `folder/filename` with clean components. -/
def WellFormedRel (rel : PStr) : Prop :=
  (rel ≠ [] ∧ '/' ∉ rel) ∨
  (∃ d b, rel = d ++ '/' :: b ∧ d ≠ [] ∧ startsWithSlash d = false ∧
     endsWithSlash d = false ∧ b ≠ [] ∧ '/' ∉ b)

lemma mem_slash_of_decomp (d b : PStr) : '/' ∈ (d ++ '/' :: b : PStr) := by
  simp

/-- Running `rpia_finish` on a well-formed relative tail rebuilds exactly
    `file_path ++ '/' ++ rel`. -/
lemma rpia_finish_ok (env : Env) (r : Resource) (te : Bool) (rel : PStr)
    (fb : Option PStr × PStr) (hrel : WellFormedRel rel)
    (h : rpia_finish env r te rel = Except.ok fb) :
    get_resource_file_path r fb.2 fb.1 = file_path r ++ '/' :: rel := by
  rcases hrel with ⟨hne, hnm⟩ | ⟨d, b, hdecomp, hdn, hds, hde, hbn, hbm⟩
  · unfold rpia_finish at h
    rw [if_neg hnm] at h
    dsimp only at h
    split at h
    · exact absurd h (by simp)
    · have hfb : fb = (none, rel) := by
        have := Except.ok.inj h
        exact this.symm
      rw [hfb]
      exact rebuild_no_folder r rel (startsWithSlash_false_of_not_mem rel hnm)
  · subst hdecomp
    unfold rpia_finish at h
    rw [if_pos (mem_slash_of_decomp d b), psplit_append d b hbm hdn hds hde] at h
    dsimp only at h
    split at h
    · exact absurd h (by simp)
    · have hfb : fb = (some d, b) := by
        have := Except.ok.inj h
        exact this.symm
      rw [hfb]
      exact rebuild_with_folder r d b hds hde hdn
        (startsWithSlash_false_of_not_mem b hbm)

lemma ends_cons_slash (y : PStr) (hy : y ≠ []) (hye : endsWithSlash y = false) :
    endsWithSlash ('/' :: y : PStr) = false := by
  rw [show ('/' :: y : PStr) = ['/'] ++ y from rfl, endsWithSlash_append _ _ hy]
  exact hye

/-- Appending a clean segment with `pjoin2` yields plain concatenation and
    preserves cleanliness of the tail. -/
lemma seg_append (x y : PStr) (hx1 : x ≠ []) (hx2 : endsWithSlash x = false)
    (hy1 : y ≠ []) (hy2 : endsWithSlash y = false) (hy3 : startsWithSlash y = false) :
    pjoin2 x y = x ++ '/' :: y ∧ ((x ++ '/' :: y : PStr) ≠ [] ∧
      endsWithSlash (x ++ '/' :: y) = false) := by
  refine ⟨pjoin2_eq x y hx1 hx2 hy3, by simp, ?_⟩
  rw [show (x ++ '/' :: y : PStr) = x ++ ('/' :: y) from rfl,
      endsWithSlash_append _ _ (by simp), ends_cons_slash y hy1 hy2]

lemma root_path_unfed (r : Resource) (h : is_federated r = false) :
    root_path r = r.short_id := by
  simp [root_path, h]

lemma locpath_eq_unfed (r : Resource) (h : is_federated r = false) :
    pjoin r.short_id [pstr "data", pstr "contents"] = file_path r := by
  rw [file_path_eq, root_path_unfed r h]
  rfl

lemma root_path_fed (r : Resource) (fp : PStr) (hr : r.resource_federation_path = some fp)
    (hne : fp ≠ []) : root_path r = pjoin2 fp r.short_id := by
  have hf : is_federated r = true := by unfold is_federated; rw [hr]; simp [hne]
  simp [root_path, hf, hr]
  rfl

lemma sid_not_endsSlash (r : Resource) (hsidm : '/' ∉ r.short_id) :
    endsWithSlash r.short_id = false := by
  unfold endsWithSlash
  exact startsWithSlash_false_of_not_mem _ (by simpa using hsidm)

/-- For a federated resource with a clean federation prefix, `file_path`
    factors as the federation prefix, a slash, and the unfederated local
    path. -/
lemma file_path_fed_decomp (r : Resource) (fp : PStr)
    (hr : r.resource_federation_path = some fp) (hne : fp ≠ [])
    (hfe : endsWithSlash fp = false) (hsid : r.short_id ≠ []) (hsidm : '/' ∉ r.short_id) :
    file_path r = (fp ++ ['/']) ++ pjoin r.short_id [pstr "data", pstr "contents"] := by
  have hse := sid_not_endsSlash r hsidm
  have hss := startsWithSlash_false_of_not_mem _ hsidm
  obtain ⟨e0, e0n, e0e⟩ := seg_append fp r.short_id hne hfe hsid hse hss
  obtain ⟨e1, e1n, e1e⟩ := seg_append (fp ++ '/' :: r.short_id) (pstr "data")
    e0n e0e (by decide) (by decide) (by decide)
  obtain ⟨e2, _, _⟩ := seg_append ((fp ++ '/' :: r.short_id) ++ '/' :: pstr "data")
    (pstr "contents") e1n e1e (by decide) (by decide) (by decide)
  obtain ⟨f1, f1n, f1e⟩ := seg_append r.short_id (pstr "data")
    hsid hse (by decide) (by decide) (by decide)
  obtain ⟨f2, _, _⟩ := seg_append (r.short_id ++ '/' :: pstr "data") (pstr "contents")
    f1n f1e (by decide) (by decide) (by decide)
  rw [file_path_eq, root_path_fed r fp hr hne]
  show pjoin2 (pjoin2 (pjoin2 fp r.short_id) (pstr "data")) (pstr "contents") = _
  rw [e0, e1, e2]
  show _ = (fp ++ ['/']) ++ pjoin2 (pjoin2 r.short_id (pstr "data")) (pstr "contents")
  rw [f1, f2]
  simp

/-- Resolution of a canonical fully-qualified input reaches `rpia_finish`
    on exactly the relative tail, in both the federated and unfederated
    qualification branches. -/
lemma rpia_ok_canonical (env : Env) (r : Resource) (te : Bool) (rel : PStr)
    (fb : Option PStr × PStr)
    (hsid : r.short_id ≠ []) (hsidm : '/' ∉ r.short_id)
    (hfp : ∀ fp, r.resource_federation_path = some fp → fp ≠ [] → endsWithSlash fp = false)
    (h : resource_path_is_acceptable env r (file_path r ++ '/' :: rel) te = Except.ok fb) :
    rpia_finish env r te rel = Except.ok fb := by
  rcases hr : r.resource_federation_path with _ | fp
  · -- unfederated resource
    have hfedF : is_federated r = false := by unfold is_federated; rw [hr]
    have hloc : pjoin r.short_id [pstr "data", pstr "contents"] = file_path r :=
      locpath_eq_unfed r hfedF
    unfold resource_path_is_acceptable at h
    rw [hr] at h
    dsimp only at h
    rw [if_neg (by simp)] at h
    rw [hloc] at h
    have hpfx : pfxOf (file_path r ++ ['/']) (file_path r ++ '/' :: rel) = true := by
      rw [show (file_path r ++ '/' :: rel : PStr) = (file_path r ++ ['/']) ++ rel by simp]
      exact pfxOf_append _ _
    rw [if_pos hpfx] at h
    have hdrop : (file_path r ++ '/' :: rel).drop (file_path r ++ ['/']).length = rel := by
      rw [show (file_path r ++ '/' :: rel : PStr) = (file_path r ++ ['/']) ++ rel by simp]
      exact List.drop_left _ _
    rw [hdrop] at h
    split at h
    · exact absurd h (by simp)
    · exact h
  · by_cases hfpe : fp = []
    · -- `resource_federation_path = ""`: behaves as unfederated
      have hfedF : is_federated r = false := by
        unfold is_federated; rw [hr]; simp [hfpe]
      have hloc : pjoin r.short_id [pstr "data", pstr "contents"] = file_path r :=
        locpath_eq_unfed r hfedF
      unfold resource_path_is_acceptable at h
      rw [hr] at h
      dsimp only at h
      rw [if_neg (by simp [hfpe])] at h
      rw [hloc] at h
      have hpfx : pfxOf (file_path r ++ ['/']) (file_path r ++ '/' :: rel) = true := by
        rw [show (file_path r ++ '/' :: rel : PStr) = (file_path r ++ ['/']) ++ rel by simp]
        exact pfxOf_append _ _
      rw [if_pos hpfx] at h
      have hdrop : (file_path r ++ '/' :: rel).drop (file_path r ++ ['/']).length = rel := by
        rw [show (file_path r ++ '/' :: rel : PStr) = (file_path r ++ ['/']) ++ rel by simp]
        exact List.drop_left _ _
      rw [hdrop] at h
      split at h
      · exact absurd h (by simp)
      · exact h
    · -- genuinely federated resource
      have hfe : endsWithSlash fp = false := hfp fp hr hfpe
      have hfd : file_path r =
          (fp ++ ['/']) ++ pjoin r.short_id [pstr "data", pstr "contents"] :=
        file_path_fed_decomp r fp hr hfpe hfe hsid hsidm
      unfold resource_path_is_acceptable at h
      rw [hr] at h
      dsimp only at h
      have hP : (file_path r ++ '/' :: rel : PStr) =
          (fp ++ ['/']) ++ ((pjoin r.short_id [pstr "data", pstr "contents"] ++ ['/']) ++ rel) := by
        rw [hfd]; simp
      have hcond : (decide (fp ≠ []) &&
          pfxOf (fp ++ ['/']) (file_path r ++ '/' :: rel)) = true := by
        rw [hP]
        simp only [pfxOf_append, Bool.and_true]
        simp [hfpe]
      rw [if_pos hcond] at h
      split at h
      · exact absurd h (by simp)
      · have hdrop1 : (file_path r ++ '/' :: rel).drop (fp ++ ['/']).length =
            (pjoin r.short_id [pstr "data", pstr "contents"] ++ ['/']) ++ rel := by
          rw [hP]
          exact List.drop_left _ _
        rw [hdrop1] at h
        rw [if_pos (pfxOf_append _ _)] at h
        rw [List.drop_left] at h
        exact h

lemma gpsp_roundtrip (env : Env) (r : Resource) (te : Bool) (rel : PStr) (q : PStr)
    (hsid : r.short_id ≠ []) (hsidm : '/' ∉ r.short_id)
    (hfp : ∀ fp, r.resource_federation_path = some fp → fp ≠ [] → endsWithSlash fp = false)
    (hrel : WellFormedRel rel)
    (h : get_path_from_storage_path env r (file_path r ++ '/' :: rel) te = Except.ok q) :
    q = file_path r ++ '/' :: rel := by
  unfold get_path_from_storage_path at h
  split at h
  · exact absurd h (by simp)
  · rename_i fb hfb
    have hfin := rpia_ok_canonical env r te rel fb hsid hsidm hfp hfb
    have hq : q = get_resource_file_path r fb.2 fb.1 := (Except.ok.inj h).symm
    rw [hq]
    exact rpia_finish_ok env r te rel fb hrel hfin

/-- Claim C7: for a well-formed fully-qualified input path
    `P = file_path(resource) / rel` whose resolution succeeds, resolving `P`
    (split via `resource_path_is_acceptable`, rebuild via
    `get_resource_file_path`, i.e. `get_path_from_storage_path`) yields `P`
    itself; consequently resolving the produced canonical path again yields
    the same canonical path (idempotent resolution). -/
theorem c7_resolver_round_trip (env : Env) (r : Resource) (te : Bool) (rel : PStr) (q : PStr)
    (hsid : r.short_id ≠ []) (hsidm : '/' ∉ r.short_id)
    (hfp : ∀ fp, r.resource_federation_path = some fp → fp ≠ [] → endsWithSlash fp = false)
    (hrel : WellFormedRel rel)
    (h : get_path_from_storage_path env r (file_path r ++ '/' :: rel) te = Except.ok q) :
    q = file_path r ++ '/' :: rel ∧
    ∀ (te2 : Bool) (q2 : PStr),
      get_path_from_storage_path env r q te2 = Except.ok q2 → q2 = q := by
  have h1 := gpsp_roundtrip env r te rel q hsid hsidm hfp hrel h
  refine ⟨h1, fun te2 q2 h2 => ?_⟩
  rw [h1] at h2
  rw [gpsp_roundtrip env r te2 rel q2 hsid hsidm hfp hrel h2, h1]

def envW : Env := ⟨⟨fun _ => true, fun _ => some ([], [])⟩,
  ⟨fun _ => true, fun _ => some ([], [])⟩, true⟩

def rW : Resource := ⟨pstr "r", none, pstr "GenericResource", pstr "t"⟩

/-- Witness for C7 at a concrete unfederated resource and path. -/
theorem c7_resolver_round_trip_witness :
    pstr "r/data/contents/f" = file_path rW ++ '/' :: pstr "f" ∧
    ∀ (te2 : Bool) (q2 : PStr),
      get_path_from_storage_path envW rW (pstr "r/data/contents/f") te2 = Except.ok q2 →
      q2 = pstr "r/data/contents/f" := by
  have h := c7_resolver_round_trip envW rW false (pstr "f") (pstr "r/data/contents/f")
    (by decide) (by decide) (fun fp hfp => Option.noConfusion hfp)
    (Or.inl ⟨by decide, by decide⟩) (by decide)
  exact h

lemma rpia_finish_false_ok (env : Env) (r : Resource) (x : PStr) :
    ∃ fb, rpia_finish env r false x = Except.ok fb := by
  unfold rpia_finish
  dsimp only
  by_cases hm : '/' ∈ x
  · rw [if_pos hm, if_neg (by simp)]
    exact ⟨_, rfl⟩
  · rw [if_neg hm, if_neg (by simp)]
    exact ⟨_, rfl⟩

/-- Claim C10: with `test_exists=False`, `resource_path_is_acceptable` makes
    no Storage Gateway call: its result is identical across any two storage
    environments, depends only on the resource's `short_id` and federation
    path, and the only possible failure is the malformed-federated-path
    `ValidationError` (the existence-based errors are unreachable). -/
theorem c10_test_exists_false_pure :
    (∀ (env env' : Env) (r r' : Resource) (path : PStr),
        r.short_id = r'.short_id →
        r.resource_federation_path = r'.resource_federation_path →
        resource_path_is_acceptable env r path false =
          resource_path_is_acceptable env' r' path false)
    ∧ (∀ (env : Env) (r : Resource) (path : PStr),
        (∃ fb, resource_path_is_acceptable env r path false = Except.ok fb)
        ∨ resource_path_is_acceptable env r path false =
            Except.error VErr.malformedFederatedPath) := by
  constructor
  · intro env env' r r' path h1 h2
    simp only [resource_path_is_acceptable, rpia_finish, Bool.false_and,
      Bool.false_eq_true, if_false, h1, h2]
  · intro env r path
    unfold resource_path_is_acceptable
    dsimp only
    split
    · rw [if_neg (by simp)]
      split
      · exact Or.inl (rpia_finish_false_ok env r _)
      · exact Or.inr rfl
    · split
      · rw [if_neg (by simp)]
        exact Or.inl (rpia_finish_false_ok env r _)
      · exact Or.inl (rpia_finish_false_ok env r _)

/-- Witness for C10 at a concrete input. -/
theorem c10_test_exists_false_pure_witness :
    resource_path_is_acceptable envW rW (pstr "a/b") false =
      resource_path_is_acceptable ⟨⟨fun _ => false, fun _ => none⟩,
        ⟨fun _ => false, fun _ => none⟩, false⟩ rW (pstr "a/b") false := by
  exact c10_test_exists_false_pure.1 envW _ rW rW (pstr "a/b") rfl rfl

lemma normalizeName_empty : normalizeName (some []) = none := by
  simp [normalizeName]

lemma normalizeName_noneWord : normalizeName (some (pstr "None")) = none := by
  simp [normalizeName]

/-- Claim C9: for each of the three legacy name fields, a raw value equal to
    the empty string or to the literal string "None" is normalized to `None`
    before any branching, so `get_effective_path` behaves identically to the
    absent-field case. -/
theorem c9_sentinel_equivalence (env : Env) (r : Resource) (f : RFile) :
    (get_effective_path env r { f with resource_file_name := some [] } =
       get_effective_path env r { f with resource_file_name := none })
    ∧ (get_effective_path env r { f with resource_file_name := some (pstr "None") } =
       get_effective_path env r { f with resource_file_name := none })
    ∧ (get_effective_path env r { f with fed_resource_file_name := some [] } =
       get_effective_path env r { f with fed_resource_file_name := none })
    ∧ (get_effective_path env r { f with fed_resource_file_name := some (pstr "None") } =
       get_effective_path env r { f with fed_resource_file_name := none })
    ∧ (get_effective_path env r { f with fed_resource_file_name_or_path := some [] } =
       get_effective_path env r { f with fed_resource_file_name_or_path := none })
    ∧ (get_effective_path env r { f with fed_resource_file_name_or_path := some (pstr "None") } =
       get_effective_path env r { f with fed_resource_file_name_or_path := none }) := by
  refine ⟨?_, ?_, ?_, ?_, ?_, ?_⟩ <;>
    simp only [get_effective_path, normalizeName_empty, normalizeName_noneWord] <;> rfl

def fileC1 : RFile := ⟨some (pstr "a"), some (pstr "b"), none, none⟩

/-- Claim C1 (code bug): with at least two non-absent name fields after
    normalization, `get_effective_path` emits exactly one
    more-than-one-name error but executes `return None` (line 265), a bare
    value instead of the `(None, folder, orig)` triple that its caller
    3-way-unpacks (`EffPathResult.bare`, not `EffPathResult.triple`). -/
theorem c1_multi_name_bare_return :
    get_effective_path envW rW fileC1 =
      ([Msg.errMoreThanOneName, Msg.nameItem (pstr "a"), Msg.nameItem (pstr "b")],
       Except.ok EffPathResult.bare)
    ∧ ((get_effective_path envW rW fileC1).1).countP
        (fun m => decide (m = Msg.errMoreThanOneName)) = 1 := by
  exact ⟨by decide, by decide⟩

def resC2 : CResource :=
  ⟨⟨pstr "r", none, pstr "RT", pstr "T"⟩,
   [⟨none, some (pstr "r/data/contents/f"), none, none⟩]⟩

def flagsC2 : Flags := ⟨false, false, true, true⟩

/-- Claim C2 (code bug): a federated name on an unfederated resource prints
    the mismatch error but resolution continues (the source has `if`, not
    `elif`, at line 332); when the path exists in storage the inferred path
    is returned as valid, the record passes Step 1, and the whole check
    returns error count zero. -/
theorem c2_fed_mismatch_treated_valid :
    (resource_check_irods_files envW resC2 flagsC2 1).result = Except.ok ([], 0)
    ∧ Msg.errFedFileForUnfed (pstr "r") (pstr "RT") (pstr "r/data/contents/f")
        ∈ (resource_check_irods_files envW resC2 flagsC2 1).stdout
    ∧ (get_effective_path envW resC2.toResource
         ⟨none, some (pstr "r/data/contents/f"), none, none⟩).2 =
        Except.ok (EffPathResult.triple (some (pstr "r/data/contents/f")) none
          (some (pstr "r/data/contents/f"))) := by
  exact ⟨by decide, by decide, by decide⟩

/-- Recognizer for the affected-resource summary diagnostic. -/
def isAffected : Msg → Bool
  | Msg.affectedResource _ _ _ => true
  | _ => false

lemma gepPart1_aff0 (env : Env) (r : Resource) (n1 ff : Option PStr) :
    ((gepPart1 env r n1 ff).1).countP isAffected = 0 := by
  unfold gepPart1
  cases n1 <;> dsimp only
  · rfl
  · repeat' split
    all_goals rfl

lemma gepPart2_aff0 (env : Env) (r : Resource) (n2 n3 inf0 orig0 ff0 : Option PStr) :
    ((gepPart2 env r n2 n3 inf0 orig0 ff0).1).countP isAffected = 0 := by
  unfold gepPart2
  cases n2 <;> cases n3 <;> dsimp only <;>
    (repeat' split) <;> rfl

lemma gepFinal_aff0 (env : Env) (r : Resource) (inferred : Option PStr) :
    (gepFinal env r inferred).countP isAffected = 0 := by
  unfold gepFinal
  cases inferred <;> dsimp only <;> (repeat' split) <;> rfl

lemma gep_aff0 (env : Env) (r : Resource) (f : RFile) :
    ((get_effective_path env r f).1).countP isAffected = 0 := by
  unfold get_effective_path gepCore
  dsimp only
  split
  · simp only [List.countP_cons, isAffected]
    rw [List.countP_eq_zero.mpr ?hmap]
    · rfl
    case hmap =>
      intro m hm
      rcases List.mem_map.mp hm with ⟨x, _, hx⟩
      rw [← hx]
      simp [isAffected]
  · split
    · simp [List.countP_append, gepPart1_aff0, gepPart2_aff0]
    · simp [List.countP_append, gepPart1_aff0, gepPart2_aff0, gepFinal_aff0]

/-! ## Reconciliation Engine lemmas -/

/-- The subdirectory loop of `__resource_check_irods_directory` (source
    lines 552-560), unrolled from the `foldl` in `walkDir`. -/
def walkDirs (env : Env) (self : Resource) (flags : Flags) (ap : List PStr)
    (fuel : Nat) (dir : PStr) : List PStr → St × Option Abort → St × Option Abort
  | [], acc => acc
  | dname :: rest, acc =>
    walkDirs env self flags ap fuel dir rest
      (match acc with
       | (st2, some a) => (st2, some a)
       | (st2, none) => walkDir env self flags ap fuel (pjoin dir [dname]) st2)

lemma foldl_eq_walkDirs (env : Env) (self : Resource) (flags : Flags) (ap : List PStr)
    (fuel : Nat) (dir : PStr) :
    ∀ (ds : List PStr) (acc : St × Option Abort),
      ds.foldl (fun acc dname =>
        match acc with
        | (st2, some a) => (st2, some a)
        | (st2, none) => walkDir env self flags ap fuel (pjoin dir [dname]) st2) acc =
      walkDirs env self flags ap fuel dir ds acc := by
  intro ds
  induction ds with
  | nil => intro acc; rfl
  | cons d rest ih =>
    intro acc
    rw [List.foldl_cons]
    exact ih _

lemma walkDir_succ (env : Env) (self : Resource) (flags : Flags) (ap : List PStr)
    (fuel : Nat) (dir : PStr) (st : St) :
    walkDir env self flags ap (fuel + 1) dir st =
      match (get_irods_storage env self).listdir dir with
      | none => recordStop flags (Msg.errListingFailed dir) st
      | some listing =>
        match walkFiles flags ap dir listing.2 (st, none) with
        | (st1, some a) => (st1, some a)
        | (st1, none) => walkDirs env self flags ap fuel dir listing.1 (st1, none) := by
  unfold walkDir
  cases h : (get_irods_storage env self).listdir dir with
  | none => rfl
  | some listing =>
    dsimp only
    rcases walkFiles flags ap dir listing.2 (st, none) with ⟨st1, _ | a⟩
    · exact foldl_eq_walkDirs env self flags ap fuel dir listing.1 (st1, none)
    · rfl

lemma recordStop_noabort (flags : Flags) (m : Msg) (st : St)
    (h : flags.stop_on_error = false) : (recordStop flags m st).2 = none := by
  simp [recordStop, h]

lemma walkFiles_noabort (flags : Flags) (ap : List PStr) (dir : PStr)
    (h : flags.stop_on_error = false) :
    ∀ (fs : List PStr) (st : St), (walkFiles flags ap dir fs (st, none)).2 = none := by
  intro fs
  induction fs with
  | nil => intro st; rfl
  | cons f rest ih =>
    intro st
    unfold walkFiles
    dsimp only
    split
    · exact ih st
    · simp only [recordStop, h, Bool.false_eq_true, if_false]
      exact ih _

lemma walkDirs_aborted (env : Env) (self : Resource) (flags : Flags) (ap : List PStr)
    (fuel : Nat) (dir : PStr) :
    ∀ (ds : List PStr) (st : St) (a : Abort),
      walkDirs env self flags ap fuel dir ds (st, some a) = (st, some a) := by
  intro ds
  induction ds with
  | nil => intro st a; rfl
  | cons d rest ih =>
    intro st a
    exact ih st a

lemma walkDirs_noabort (env : Env) (self : Resource) (flags : Flags) (ap : List PStr)
    (fuel : Nat) (dir : PStr)
    (ihw : ∀ (dir' : PStr) (st' : St), (walkDir env self flags ap fuel dir' st').2 = none) :
    ∀ (ds : List PStr) (st : St),
      (walkDirs env self flags ap fuel dir ds (st, none)).2 = none := by
  intro ds
  induction ds with
  | nil => intro st; rfl
  | cons d rest ih =>
    intro st
    have hstep : walkDirs env self flags ap fuel dir (d :: rest) (st, none) =
        walkDirs env self flags ap fuel dir rest
          (walkDir env self flags ap fuel (pjoin dir [d]) st) := rfl
    rw [hstep]
    rcases hwd : walkDir env self flags ap fuel (pjoin dir [d]) st with ⟨st2, ab2⟩
    have hab2 : ab2 = none := by
      have h2 := ihw (pjoin dir [d]) st
      rw [hwd] at h2
      exact h2
    rw [hab2]
    exact ih st2

lemma walkDir_noabort (env : Env) (self : Resource) (flags : Flags) (ap : List PStr)
    (h : flags.stop_on_error = false) :
    ∀ (fuel : Nat) (dir : PStr) (st : St),
      (walkDir env self flags ap fuel dir st).2 = none := by
  intro fuel
  induction fuel with
  | zero => intro dir st; rfl
  | succ fuel ih =>
    intro dir st
    rw [walkDir_succ]
    cases hl : (get_irods_storage env self).listdir dir with
    | none => exact recordStop_noabort flags _ st h
    | some listing =>
      dsimp only
      cases hwf : walkFiles flags ap dir listing.2 (st, none) with
      | mk st1 ab =>
        have hab : ab = none := by
          have h2 := walkFiles_noabort flags ap dir h listing.2 st
          rw [hwf] at h2
          exact h2
        subst hab
        dsimp only
        exact walkDirs_noabort env self flags ap fuel dir ih listing.1 st1


/-- Concatenation of sink states: the engine only ever appends to its
    sinks, so every phase is a writer over `St`. -/
def stJoin (s t : St) : St :=
  ⟨s.stdout ++ t.stdout, s.log ++ t.log, s.errors ++ t.errors, s.ecount + t.ecount⟩

lemma stJoin_empty_right (s : St) : stJoin s St.empty = s := by
  simp [stJoin, St.empty]

lemma stJoin_empty_left (t : St) : stJoin St.empty t = t := by
  simp [stJoin, St.empty]

lemma stJoin_assoc (a b c : St) : stJoin (stJoin a b) c = stJoin a (stJoin b c) := by
  simp [stJoin, Nat.add_assoc]

lemma record_frame (flags : Flags) (m : Msg) (st : St) :
    record flags m st = stJoin st (record flags m St.empty) := by
  simp [record, stJoin, St.empty]

lemma walkFiles_frame (flags : Flags) (ap : List PStr) (dir : PStr) :
    ∀ (fs : List PStr) (st : St),
      walkFiles flags ap dir fs (st, none) =
        (stJoin st (walkFiles flags ap dir fs (St.empty, none)).1,
         (walkFiles flags ap dir fs (St.empty, none)).2) := by
  intro fs
  induction fs with
  | nil => intro st; simp [walkFiles, stJoin_empty_right]
  | cons f rest ih =>
    intro st
    unfold walkFiles
    dsimp only
    split
    · rw [ih st]
    · by_cases hs : flags.stop_on_error = true
      · simp only [recordStop, hs, if_true]
        rw [record_frame]
      · have hs' : flags.stop_on_error = false := by
          cases hh : flags.stop_on_error
          · rfl
          · exact absurd hh hs
        simp only [recordStop, hs', Bool.false_eq_true, if_false]
        rw [ih (record flags _ st), ih (record flags _ St.empty),
            record_frame, stJoin_assoc]

lemma walkDirs_frame (env : Env) (self : Resource) (flags : Flags) (ap : List PStr)
    (fuel : Nat) (dir : PStr)
    (ihw : ∀ (dir' : PStr) (st' : St),
      walkDir env self flags ap fuel dir' st' =
        (stJoin st' (walkDir env self flags ap fuel dir' St.empty).1,
         (walkDir env self flags ap fuel dir' St.empty).2)) :
    ∀ (ds : List PStr) (st : St),
      walkDirs env self flags ap fuel dir ds (st, none) =
        (stJoin st (walkDirs env self flags ap fuel dir ds (St.empty, none)).1,
         (walkDirs env self flags ap fuel dir ds (St.empty, none)).2) := by
  intro ds
  induction ds with
  | nil => intro st; simp [walkDirs, stJoin_empty_right]
  | cons d rest ih =>
    intro st
    have hstep : ∀ (s : St), walkDirs env self flags ap fuel dir (d :: rest) (s, none) =
        walkDirs env self flags ap fuel dir rest
          (walkDir env self flags ap fuel (pjoin dir [d]) s) := fun _ => rfl
    rw [hstep st, hstep St.empty, ihw (pjoin dir [d]) st]
    rcases hwe : walkDir env self flags ap fuel (pjoin dir [d]) St.empty with ⟨w1, wab⟩
    cases wab with
    | some a =>
      rw [walkDirs_aborted, walkDirs_aborted]
    | none =>
      rw [ih (stJoin st w1), ih w1, stJoin_assoc]

lemma walkDir_frame (env : Env) (self : Resource) (flags : Flags) (ap : List PStr) :
    ∀ (fuel : Nat) (dir : PStr) (st : St),
      walkDir env self flags ap fuel dir st =
        (stJoin st (walkDir env self flags ap fuel dir St.empty).1,
         (walkDir env self flags ap fuel dir St.empty).2) := by
  intro fuel
  induction fuel with
  | zero => intro dir st; simp [walkDir, stJoin_empty_right]
  | succ fuel ih =>
    intro dir st
    rw [walkDir_succ, walkDir_succ]
    cases hl : (get_irods_storage env self).listdir dir with
    | none =>
      dsimp only
      rw [show recordStop flags (Msg.errListingFailed dir) st =
          (record flags (Msg.errListingFailed dir) st,
           (recordStop flags (Msg.errListingFailed dir) st).2) from rfl,
          show recordStop flags (Msg.errListingFailed dir) St.empty =
          (record flags (Msg.errListingFailed dir) St.empty,
           (recordStop flags (Msg.errListingFailed dir) St.empty).2) from rfl]
      rw [record_frame]
      rfl
    | some listing =>
      dsimp only
      rw [walkFiles_frame flags ap dir listing.2 st]
      rcases hwf : walkFiles flags ap dir listing.2 (St.empty, none) with ⟨wf1, wfab⟩
      cases wfab with
      | some a => rfl
      | none =>
        dsimp only
        rw [walkDirs_frame env self flags ap fuel dir ih listing.1 (stJoin st wf1),
            walkDirs_frame env self flags ap fuel dir ih listing.1 wf1,
            stJoin_assoc]

/-- With `return_errors` set, the collected error list stays in lockstep
    with the error count. -/
def stOk (st : St) : Prop := st.errors.length = st.ecount

lemma record_stOk (flags : Flags) (m : Msg) (st : St)
    (hre : flags.return_errors = true) (h : stOk st) : stOk (record flags m st) := by
  simp [record, stOk, hre] at h ⊢
  omega

lemma walkFiles_stOk (flags : Flags) (ap : List PStr) (dir : PStr)
    (hre : flags.return_errors = true) :
    ∀ (fs : List PStr) (acc : St × Option Abort),
      stOk acc.1 → stOk (walkFiles flags ap dir fs acc).1 := by
  intro fs
  induction fs with
  | nil => intro acc h; exact h
  | cons f rest ih =>
    intro acc h
    rcases acc with ⟨st, _ | a⟩
    · unfold walkFiles
      dsimp only
      split
      · exact ih (st, none) h
      · by_cases hs : flags.stop_on_error = true
        · simp only [recordStop, hs, if_true]
          exact record_stOk flags _ st hre h
        · have hs' : flags.stop_on_error = false := by
            cases hh : flags.stop_on_error
            · rfl
            · exact absurd hh hs
          simp only [recordStop, hs', Bool.false_eq_true, if_false]
          exact ih (record flags _ st, none) (record_stOk flags _ st hre h)
    · exact h

lemma walkDirs_stOk (env : Env) (self : Resource) (flags : Flags) (ap : List PStr)
    (fuel : Nat) (dir : PStr) (hre : flags.return_errors = true)
    (ihw : ∀ (dir' : PStr) (st' : St), stOk st' →
      stOk (walkDir env self flags ap fuel dir' st').1) :
    ∀ (ds : List PStr) (acc : St × Option Abort),
      stOk acc.1 → stOk (walkDirs env self flags ap fuel dir ds acc).1 := by
  intro ds
  induction ds with
  | nil => intro acc h; exact h
  | cons d rest ih =>
    intro acc h
    rcases acc with ⟨st, _ | a⟩
    · have hstep : walkDirs env self flags ap fuel dir (d :: rest) (st, none) =
          walkDirs env self flags ap fuel dir rest
            (walkDir env self flags ap fuel (pjoin dir [d]) st) := rfl
      rw [hstep]
      rcases hwd : walkDir env self flags ap fuel (pjoin dir [d]) st with ⟨st2, ab2⟩
      have h2 : stOk st2 := by
        have := ihw (pjoin dir [d]) st h
        rw [hwd] at this
        exact this
      cases ab2 with
      | none => exact ih (st2, none) h2
      | some a => rw [walkDirs_aborted]; exact h2
    · have : walkDirs env self flags ap fuel dir (d :: rest) (st, some a) = (st, some a) :=
        walkDirs_aborted env self flags ap fuel dir _ st a
      rw [this]
      exact h

lemma walkDir_stOk (env : Env) (self : Resource) (flags : Flags) (ap : List PStr)
    (hre : flags.return_errors = true) :
    ∀ (fuel : Nat) (dir : PStr) (st : St),
      stOk st → stOk (walkDir env self flags ap fuel dir st).1 := by
  intro fuel
  induction fuel with
  | zero => intro dir st h; exact h
  | succ fuel ih =>
    intro dir st h
    rw [walkDir_succ]
    cases hl : (get_irods_storage env self).listdir dir with
    | none =>
      show stOk (recordStop flags (Msg.errListingFailed dir) st).1
      exact record_stOk flags _ st hre h
    | some listing =>
      dsimp only
      rcases hwf : walkFiles flags ap dir listing.2 (st, none) with ⟨st1, ab⟩
      have h1 : stOk st1 := by
        have := walkFiles_stOk flags ap dir hre listing.2 (st, none) h
        rw [hwf] at this
        exact this
      cases ab with
      | some a => exact h1
      | none =>
        dsimp only
        exact walkDirs_stOk env self flags ap fuel dir hre (fun d' s' => ih d' s')
          listing.1 (st1, none) h1

lemma check_step1_stOk (env : Env) (res : Resource) (flags : Flags)
    (hre : flags.return_errors = true) :
    ∀ (files : List RFile) (acc : St × List PStr × Option Abort),
      stOk acc.1 → stOk (check_step1 env res flags files acc).1 := by
  intro files
  induction files with
  | nil => intro acc h; exact h
  | cons f rest ih =>
    intro acc h
    rcases acc with ⟨st, ap, ab⟩
    cases ab with
    | some a => exact h
    | none =>
      unfold check_step1
      dsimp only
      split
      · exact h
      · exact h
      · split
        · by_cases hs : flags.stop_on_error = true
          · simp only [recordStop, hs, if_true]
            exact record_stOk flags _ _ hre h
          · have hs' : flags.stop_on_error = false := by
              cases hh : flags.stop_on_error
              · rfl
              · exact absurd hh hs
            simp only [recordStop, hs', Bool.false_eq_true, if_false]
            exact ih _ (record_stOk flags _ _ hre h)
        · exact ih _ h

lemma check_step12_stOk (env : Env) (self : CResource) (flags : Flags) (fuel : Nat)
    (hre : flags.return_errors = true) :
    stOk (check_step12 env self flags fuel).1 := by
  unfold check_step12
  dsimp only
  have h1 : stOk (if is_federated self.toResource then
      emitInfo flags (Msg.infoFederationPfx (self.resource_federation_path.getD []))
        St.empty
    else St.empty) := by
    split
    · exact rfl
    · exact rfl
  split
  · exact h1
  · rcases hcs : check_step1 env self.toResource flags self.files
      (if is_federated self.toResource then
        emitInfo flags (Msg.infoFederationPfx (self.resource_federation_path.getD []))
          St.empty
      else St.empty, [], none) with ⟨st2, ap2, ab⟩
    have h2 : stOk st2 := by
      have h3 := check_step1_stOk env self.toResource flags hre self.files
        ((if is_federated self.toResource then
          emitInfo flags (Msg.infoFederationPfx (self.resource_federation_path.getD []))
            St.empty
        else St.empty), [], none) h1
      rw [hcs] at h3
      exact h3
    cases ab with
    | some a => exact h2
    | none =>
      dsimp only
      exact walkDir_stOk env self.toResource flags ap2 hre fuel
        (file_path self.toResource) st2 h2

/-- Claim C3 (amended): with `stop_on_error=False` and `return_errors=True`,
    a completed check returns an error list whose length equals the error
    count plus one when the count is non-zero — the affected-resource
    summary line is appended to the same returned list — and equals zero
    when the count is zero. -/
theorem c3_error_list_length (env : Env) (self : CResource) (flags : Flags) (fuel : Nat)
    (errs : List Msg) (ec : Nat)
    (h1 : flags.stop_on_error = false) (h2 : flags.return_errors = true)
    (h : (resource_check_irods_files env self flags fuel).result = Except.ok (errs, ec)) :
    errs.length = ec + (if ec = 0 then 0 else 1) := by
  unfold resource_check_irods_files at h
  rcases hcs : check_step12 env self flags fuel with ⟨st, ab⟩
  rw [hcs] at h
  cases ab with
  | some a => exact absurd h (by simp)
  | none =>
    dsimp only at h
    have hok : stOk st := by
      have h3 := check_step12_stOk env self flags fuel h2
      rw [hcs] at h3
      exact h3
    unfold stOk at hok
    split at h
    · -- root directory missing: one more error recorded
      split at h
      · simp only [Except.ok.injEq, Prod.mk.injEq] at h
        obtain ⟨he, hc⟩ := h
        subst he
        subst hc
        simp only [emitSummary, record, h2, if_true, List.length_append]
        rw [if_neg (by simp [record])]
        simp [record, hok]
      · rename_i hcond
        exact absurd (by simp [record] : 0 < (record flags
          (Msg.errRootDoesNotExist self.short_id) st).ecount) hcond
    · split at h
      · rename_i hcond
        simp only [Except.ok.injEq, Prod.mk.injEq] at h
        obtain ⟨he, hc⟩ := h
        subst he
        subst hc
        simp only [emitSummary, h2, if_true, List.length_append]
        rw [if_neg (by omega)]
        simp [hok]
      · rename_i hcond
        simp only [Except.ok.injEq, Prod.mk.injEq] at h
        obtain ⟨he, hc⟩ := h
        subst he
        subst hc
        rw [if_pos (by omega)]
        simp [hok]

def envA : Env := ⟨⟨fun _ => false, fun _ => none⟩, ⟨fun _ => false, fun _ => none⟩, true⟩

def resA : CResource := ⟨⟨pstr "r", none, pstr "RT", pstr "T"⟩, []⟩

def flagsA : Flags := ⟨false, false, false, true⟩

def errsA : List Msg := [Msg.errListingFailed (pstr "r/data/contents"),
  Msg.errRootDoesNotExist (pstr "r"),
  Msg.affectedResource (pstr "r") (pstr "RT") (pstr "T")]

/-- Counterexample to C3 as stated: a run with two errors returns a list of
    three messages (the summary is appended to the same returned list), so
    the returned list length differs from the error count. -/
theorem c3_counterexample :
    ¬ (∀ (errs : List Msg) (ec : Nat),
        (resource_check_irods_files envA resA flagsA 1).result = Except.ok (errs, ec) →
        errs.length = ec) := by
  intro hcl
  exact absurd (hcl errsA 2 (by decide)) (by decide)

/-- Witness for the amended C3 at a concrete input. -/
theorem c3_error_list_length_witness :
    errsA.length = 2 + (if 2 = 0 then 0 else 1) :=
  c3_error_list_length envA resA flagsA 1 errsA 2 rfl rfl (by decide)

lemma check_step1_noabort (env : Env) (res : Resource) (flags : Flags)
    (h1 : flags.stop_on_error = false) :
    ∀ (files : List RFile) (st : St) (ap : List PStr),
      (∀ f ∈ files, ∃ i fo o, (get_effective_path env res f).2 =
        Except.ok (EffPathResult.triple i fo o)) →
      (check_step1 env res flags files (st, ap, none)).2.2 = none := by
  intro files
  induction files with
  | nil => intro st ap hf; rfl
  | cons f rest ih =>
    intro st ap hf
    obtain ⟨i, fo, o, hok⟩ := hf f (List.mem_cons_self f rest)
    unfold check_step1
    dsimp only
    rw [hok]
    dsimp only
    split
    · simp only [recordStop, h1, Bool.false_eq_true, if_false]
      exact ih _ _ (fun g hg => hf g (List.mem_cons_of_mem f hg))
    · exact ih _ _ (fun g hg => hf g (List.mem_cons_of_mem f hg))

lemma check_step12_noabort (env : Env) (self : CResource) (flags : Flags) (fuel : Nat)
    (h1 : flags.stop_on_error = false)
    (h2 : ∀ f ∈ self.files, ∃ i fo o, (get_effective_path env self.toResource f).2 =
      Except.ok (EffPathResult.triple i fo o)) :
    (check_step12 env self flags fuel).2 = none := by
  unfold check_step12
  dsimp only
  split
  · rfl
  · rcases hcs : check_step1 env self.toResource flags self.files
      (if is_federated self.toResource then
        emitInfo flags (Msg.infoFederationPfx (self.resource_federation_path.getD []))
          St.empty
      else St.empty, [], none) with ⟨st2, ap2, ab⟩
    have hab : ab = none := by
      have h3 := check_step1_noabort env self.toResource flags h1 self.files
        (if is_federated self.toResource then
          emitInfo flags (Msg.infoFederationPfx (self.resource_federation_path.getD []))
            St.empty
        else St.empty) [] h2
      rw [hcs] at h3
      exact h3
    subst hab
    dsimp only
    exact walkDir_noabort env self.toResource flags ap2 h1 fuel
      (file_path self.toResource) st2

/-- Claim C4 (amended): with `stop_on_error=False` and every file record's
    inference returning normally, the check always completes its three steps
    in order; Step 3 runs regardless of the outcome of Steps 1-2 (including
    the federated-skip case) and counts exactly one extra error, with its
    diagnostic collected, whenever the resource root is absent. -/
theorem c4_step3_always_runs (env : Env) (self : CResource) (flags : Flags) (fuel : Nat)
    (h1 : flags.stop_on_error = false)
    (h2 : ∀ f ∈ self.files, ∃ i fo o, (get_effective_path env self.toResource f).2 =
      Except.ok (EffPathResult.triple i fo o)) :
    ∃ errs ec, (resource_check_irods_files env self flags fuel).result = Except.ok (errs, ec) ∧
      ((get_irods_storage env self.toResource).stExists (rpath_of self.toResource) = false →
        ec = (check_step12 env self flags fuel).1.ecount + 1 ∧
        (flags.return_errors = true → Msg.errRootDoesNotExist self.short_id ∈ errs)) := by
  rcases hcs : check_step12 env self flags fuel with ⟨st, ab⟩
  have hab : ab = none := by
    have h3 := check_step12_noabort env self flags fuel h1 h2
    rw [hcs] at h3
    exact h3
  subst hab
  unfold resource_check_irods_files
  rw [hcs]
  dsimp only
  cases hroot : (get_irods_storage env self.toResource).stExists (rpath_of self.toResource) with
  | false =>
    simp only [hroot, Bool.not_false, if_true]
    rw [if_pos (by simp [record])]
    refine ⟨_, _, rfl, fun _ => ⟨?_, fun hre => ?_⟩⟩
    · simp [emitSummary, record]
    · simp [emitSummary, record, hre]
  | true =>
    simp only [hroot, Bool.not_true, Bool.false_eq_true, if_false]
    exact ⟨_, _, rfl, fun hcontra => absurd hcontra (by simp)⟩

def resC4 : CResource := ⟨⟨pstr "r", none, pstr "RT", pstr "T"⟩, [⟨none, none, none, none⟩]⟩

def flagsC4 : Flags := ⟨true, false, false, true⟩

/-- Counterexample to C4 as stated: with `stop_on_error=True`, a Step-1
    error raises immediately, so the check never returns and the absent
    root is never counted by Step 3. -/
theorem c4_counterexample :
    envA.localStorage.stExists (rpath_of resC4.toResource) = false
    ∧ (resource_check_irods_files envA resC4 flagsC4 1).result =
        Except.error (Abort.validation (Msg.errDjangoFileDoesNotExist none none none)) := by
  exact ⟨by decide, by decide⟩

/-- Witness for the amended C4 at a concrete input (missing root counted on
    top of a Step-2 listing failure). -/
theorem c4_step3_always_runs_witness :
    ∃ errs ec, (resource_check_irods_files envA resA flagsA 1).result = Except.ok (errs, ec) ∧
      (envA.localStorage.stExists (rpath_of resA.toResource) = false →
        ec = (check_step12 envA resA flagsA 1).1.ecount + 1 ∧
        (flagsA.return_errors = true → Msg.errRootDoesNotExist resA.short_id ∈ errs)) :=
  c4_step3_always_runs envA resA flagsA 1 rfl
    (fun f hf => absurd hf (List.not_mem_nil f))

/-- Claim C5 (amended): a resource with zero file records whose content
    directory `root/data/contents` exists and lists empty, and whose root
    exists, checks with error count zero (and an empty error list). -/
theorem c5_empty_resource_zero_errors (env : Env) (self : CResource) (flags : Flags)
    (fuel : Nat) (hfiles : self.files = [])
    (hls : (get_irods_storage env self.toResource).listdir (file_path self.toResource) =
      some ([], []))
    (hex : (get_irods_storage env self.toResource).stExists (rpath_of self.toResource) = true) :
    (resource_check_irods_files env self flags (fuel + 1)).result = Except.ok ([], 0) := by
  have hempty : ∃ st, check_step12 env self flags (fuel + 1) = (st, none) ∧
      st.errors = [] ∧ st.ecount = 0 := by
    unfold check_step12
    rw [hfiles]
    dsimp only
    split
    · refine ⟨_, rfl, ?_, ?_⟩ <;>
        (simp only [emitInfo, St.empty]; split <;> rfl)
    · dsimp only [check_step1]
      rw [walkDir_succ, hls]
      dsimp only [walkFiles, walkDirs]
      refine ⟨_, rfl, ?_, ?_⟩ <;> (split <;> simp [emitInfo, St.empty])
  obtain ⟨st, h12, herr, hec⟩ := hempty
  unfold resource_check_irods_files
  rw [h12]
  dsimp only
  simp only [hex, Bool.not_true, Bool.false_eq_true, if_false]
  rw [if_neg (by simp [hec])]
  simp [herr, hec]

def envB : Env := ⟨⟨fun _ => false, fun _ => none⟩,
  ⟨fun p => p = pstr "r", fun _ => none⟩, true⟩

/-- Counterexample to C5 as stated: a resource with zero file records and an
    existing but truly empty root (so `root/data/contents` is absent and its
    listing fails) checks with error count 1, not 0. -/
theorem c5_counterexample :
    envB.localStorage.stExists (pstr "r") = true
    ∧ envB.localStorage.stExists (file_path resA.toResource) = false
    ∧ envB.localStorage.listdir (file_path resA.toResource) = none
    ∧ resA.files = []
    ∧ ¬ (∀ (errs : List Msg) (ec : Nat),
          (resource_check_irods_files envB resA flagsA 1).result = Except.ok (errs, ec) →
          ec = 0) := by
  refine ⟨by decide, by decide, by decide, rfl, fun hcl => ?_⟩
  exact absurd (hcl [Msg.errListingFailed (pstr "r/data/contents"),
    Msg.affectedResource (pstr "r") (pstr "RT") (pstr "T")] 1 (by decide)) (by decide)

/-- Witness for the amended C5 at a concrete input. -/
theorem c5_empty_resource_zero_errors_witness :
    (resource_check_irods_files envW resA flagsA (0 + 1)).result = Except.ok ([], 0) :=
  c5_empty_resource_zero_errors envW resA flagsA 0 rfl (by decide) (by decide)

lemma walkDirs_errors_decomp (env : Env) (self : Resource) (flags : Flags) (ap : List PStr)
    (fuel : Nat) (dir : PStr) (h1 : flags.stop_on_error = false) :
    ∀ (ds : List PStr) (st1 : St) (d : PStr), d ∈ ds →
      ∃ pre post, (walkDirs env self flags ap fuel dir ds (st1, none)).1.errors =
        pre ++ (walkDir env self flags ap fuel (pjoin dir [d]) St.empty).1.errors ++ post := by
  intro ds
  induction ds with
  | nil => intro st1 d hd; cases hd
  | cons a rest ih =>
    intro st1 d hd
    have hstep : walkDirs env self flags ap fuel dir (a :: rest) (st1, none) =
        walkDirs env self flags ap fuel dir rest
          (walkDir env self flags ap fuel (pjoin dir [a]) st1) := rfl
    rw [hstep, walkDir_frame env self flags ap fuel (pjoin dir [a]) st1,
        walkDir_noabort env self flags ap h1 fuel (pjoin dir [a]) St.empty]
    rcases List.mem_cons.mp hd with rfl | hd'
    · rw [walkDirs_frame env self flags ap fuel dir
        (fun dir' st' => walkDir_frame env self flags ap fuel dir' st') rest
        (stJoin st1 (walkDir env self flags ap fuel (pjoin dir [d]) St.empty).1)]
      refine ⟨st1.errors,
        (walkDirs env self flags ap fuel dir rest (St.empty, none)).1.errors, ?_⟩
      simp [stJoin, List.append_assoc]
    · exact ih _ d hd'

/-- Claim C6: in the Step-2 walk with `stop_on_error=False`, a
    `SessionException` on a directory's listing contributes exactly one
    error for that subtree (one listing attempt, no retry, no abort), and
    the errors produced by each subdirectory's independent walk appear
    intact in the parent's error output, so a failure in one subtree never
    suppresses the findings of sibling subtrees. -/
theorem c6_listing_failure_isolated (env : Env) (self : Resource) (flags : Flags)
    (ap : List PStr) (fuel : Nat) (dir : PStr) (st : St)
    (h1 : flags.stop_on_error = false) (h2 : flags.return_errors = true) :
    ((get_irods_storage env self).listdir dir = none →
       walkDir env self flags ap (fuel + 1) dir st =
         (record flags (Msg.errListingFailed dir) st, none) ∧
       (record flags (Msg.errListingFailed dir) st).errors =
         st.errors ++ [Msg.errListingFailed dir] ∧
       (record flags (Msg.errListingFailed dir) st).ecount = st.ecount + 1)
    ∧ (∀ (ds fs : List PStr) (d : PStr),
        (get_irods_storage env self).listdir dir = some (ds, fs) → d ∈ ds →
        ∃ pre post, (walkDir env self flags ap (fuel + 1) dir st).1.errors =
          pre ++ (walkDir env self flags ap fuel (pjoin dir [d]) St.empty).1.errors ++ post) := by
  constructor
  · intro hnone
    rw [walkDir_succ, hnone]
    refine ⟨by simp [recordStop, h1], by simp [record, h2], by simp [record]⟩
  · intro ds fs d hsome hd
    rw [walkDir_succ, hsome]
    dsimp only
    rcases hwf : walkFiles flags ap dir fs (st, none) with ⟨st1, ab⟩
    have hab : ab = none := by
      have h3 := walkFiles_noabort flags ap dir h1 fs st
      rw [hwf] at h3
      exact h3
    subst hab
    exact walkDirs_errors_decomp env self flags ap fuel dir h1 ds st1 d hd

def stD : Storage := ⟨fun _ => false, fun p =>
  if p = pstr "root" then some ([pstr "d1", pstr "d2"], [])
  else if p = pstr "root/d1" then none
  else if p = pstr "root/d2" then some ([], [pstr "f"])
  else none⟩

def envD : Env := ⟨stD, stD, true⟩

def selfD : Resource := ⟨pstr "r", none, pstr "RT", pstr "T"⟩

/-- Witness for C6: the failing subtree `root/d1` reports exactly its one
    listing error inside the parent walk that also reports the sibling
    `root/d2/f`. -/
theorem c6_listing_failure_isolated_witness :
    ∃ pre post, (walkDir envD selfD flagsA [] (1 + 1) (pstr "root") St.empty).1.errors =
      pre ++ (walkDir envD selfD flagsA [] 1
        (pjoin (pstr "root") [pstr "d1"]) St.empty).1.errors ++ post :=
  (c6_listing_failure_isolated envD selfD flagsA [] 1 (pstr "root") St.empty rfl rfl).2
    [pstr "d1", pstr "d2"] [] (pstr "d1") (by decide) (by decide)

/-- No sink contains an affected-resource summary message. -/
def affFree (st : St) : Prop :=
  st.stdout.countP isAffected = 0 ∧ st.log.countP isAffected = 0 ∧
    st.errors.countP isAffected = 0

lemma affFree_empty : affFree St.empty := ⟨rfl, rfl, rfl⟩

lemma record_affFree (flags : Flags) (m : Msg) (st : St)
    (hm : isAffected m = false) (h : affFree st) : affFree (record flags m st) := by
  refine ⟨?_, ?_, ?_⟩
  · simp only [record, List.countP_append, h.1]
    split <;> simp [List.countP_cons, hm]
  · simp only [record, List.countP_append, h.2.1]
    split <;> simp [List.countP_cons, hm]
  · simp only [record, List.countP_append, h.2.2]
    split <;> simp [List.countP_cons, hm]

lemma emitInfo_affFree (flags : Flags) (m : Msg) (st : St)
    (hm : isAffected m = false) (h : affFree st) : affFree (emitInfo flags m st) := by
  refine ⟨?_, ?_, h.2.2⟩
  · simp only [emitInfo, List.countP_append, h.1]
    split <;> simp [List.countP_cons, hm]
  · simp only [emitInfo, List.countP_append, h.2.1]
    split <;> simp [List.countP_cons, hm]

lemma walkFiles_affFree (flags : Flags) (ap : List PStr) (dir : PStr) :
    ∀ (fs : List PStr) (acc : St × Option Abort),
      affFree acc.1 → affFree (walkFiles flags ap dir fs acc).1 := by
  intro fs
  induction fs with
  | nil => intro acc h; exact h
  | cons f rest ih =>
    intro acc h
    rcases acc with ⟨st, _ | a⟩
    · unfold walkFiles
      dsimp only
      split
      · exact ih (st, none) h
      · by_cases hs : flags.stop_on_error = true
        · simp only [recordStop, hs, if_true]
          exact record_affFree flags _ st rfl h
        · have hs' : flags.stop_on_error = false := by
            cases hh : flags.stop_on_error
            · rfl
            · exact absurd hh hs
          simp only [recordStop, hs', Bool.false_eq_true, if_false]
          exact ih (record flags _ st, none) (record_affFree flags _ st rfl h)
    · exact h

lemma walkDirs_affFree (env : Env) (self : Resource) (flags : Flags) (ap : List PStr)
    (fuel : Nat) (dir : PStr)
    (ihw : ∀ (dir' : PStr) (st' : St), affFree st' →
      affFree (walkDir env self flags ap fuel dir' st').1) :
    ∀ (ds : List PStr) (acc : St × Option Abort),
      affFree acc.1 → affFree (walkDirs env self flags ap fuel dir ds acc).1 := by
  intro ds
  induction ds with
  | nil => intro acc h; exact h
  | cons d rest ih =>
    intro acc h
    rcases acc with ⟨st, _ | a⟩
    · have hstep : walkDirs env self flags ap fuel dir (d :: rest) (st, none) =
          walkDirs env self flags ap fuel dir rest
            (walkDir env self flags ap fuel (pjoin dir [d]) st) := rfl
      rw [hstep]
      rcases hwd : walkDir env self flags ap fuel (pjoin dir [d]) st with ⟨st2, ab2⟩
      have h2 : affFree st2 := by
        have h3 := ihw (pjoin dir [d]) st h
        rw [hwd] at h3
        exact h3
      cases ab2 with
      | none => exact ih (st2, none) h2
      | some a => rw [walkDirs_aborted]; exact h2
    · have heq : walkDirs env self flags ap fuel dir (d :: rest) (st, some a) = (st, some a) :=
        walkDirs_aborted env self flags ap fuel dir _ st a
      rw [heq]
      exact h

lemma walkDir_affFree (env : Env) (self : Resource) (flags : Flags) (ap : List PStr) :
    ∀ (fuel : Nat) (dir : PStr) (st : St),
      affFree st → affFree (walkDir env self flags ap fuel dir st).1 := by
  intro fuel
  induction fuel with
  | zero => intro dir st h; exact h
  | succ fuel ih =>
    intro dir st h
    rw [walkDir_succ]
    cases hl : (get_irods_storage env self).listdir dir with
    | none =>
      show affFree (recordStop flags (Msg.errListingFailed dir) st).1
      exact record_affFree flags _ st rfl h
    | some listing =>
      dsimp only
      rcases hwf : walkFiles flags ap dir listing.2 (st, none) with ⟨st1, ab⟩
      have h1 : affFree st1 := by
        have h3 := walkFiles_affFree flags ap dir listing.2 (st, none) h
        rw [hwf] at h3
        exact h3
      cases ab with
      | some a => exact h1
      | none =>
        dsimp only
        exact walkDirs_affFree env self flags ap fuel dir (fun d' s' => ih d' s')
          listing.1 (st1, none) h1

lemma check_step1_affFree (env : Env) (res : Resource) (flags : Flags) :
    ∀ (files : List RFile) (acc : St × List PStr × Option Abort),
      affFree acc.1 → affFree (check_step1 env res flags files acc).1 := by
  intro files
  induction files with
  | nil => intro acc h; exact h
  | cons f rest ih =>
    intro acc h
    rcases acc with ⟨st, ap, ab⟩
    cases ab with
    | some a => exact h
    | none =>
      have hst1 : affFree { st with stdout := st.stdout ++ (get_effective_path env res f).1 } := by
        refine ⟨?_, h.2.1, h.2.2⟩
        simp [List.countP_append, h.1, gep_aff0]
      unfold check_step1
      dsimp only
      split
      · exact hst1
      · exact hst1
      · split
        · by_cases hs : flags.stop_on_error = true
          · simp only [recordStop, hs, if_true]
            exact record_affFree flags _ _ rfl hst1
          · have hs' : flags.stop_on_error = false := by
              cases hh : flags.stop_on_error
              · rfl
              · exact absurd hh hs
            simp only [recordStop, hs', Bool.false_eq_true, if_false]
            exact ih _ (record_affFree flags _ _ rfl hst1)
        · exact ih _ hst1

lemma check_step12_affFree (env : Env) (self : CResource) (flags : Flags) (fuel : Nat) :
    affFree (check_step12 env self flags fuel).1 := by
  unfold check_step12
  dsimp only
  have h1 : affFree (if is_federated self.toResource then
      emitInfo flags (Msg.infoFederationPfx (self.resource_federation_path.getD []))
        St.empty
    else St.empty) := by
    split
    · exact emitInfo_affFree flags _ _ rfl affFree_empty
    · exact affFree_empty
  split
  · exact emitInfo_affFree flags _ _ rfl h1
  · rcases hcs : check_step1 env self.toResource flags self.files
      (if is_federated self.toResource then
        emitInfo flags (Msg.infoFederationPfx (self.resource_federation_path.getD []))
          St.empty
      else St.empty, [], none) with ⟨st2, ap2, ab⟩
    have h2 : affFree st2 := by
      have h3 := check_step1_affFree env self.toResource flags self.files
        ((if is_federated self.toResource then
          emitInfo flags (Msg.infoFederationPfx (self.resource_federation_path.getD []))
            St.empty
        else St.empty), [], none) h1
      rw [hcs] at h3
      exact h3
    cases ab with
    | some a => exact h2
    | none =>
      dsimp only
      exact walkDir_affFree env self.toResource flags ap2 fuel
        (file_path self.toResource) st2 h2

/-- Claim C8: whenever a completed check has a non-zero error count it emits
    exactly one affected-resource summary (naming short id, type, title) to
    each configured sink, appended after (not replacing) the itemized
    diagnostics; with a zero count no summary appears in any sink. -/
theorem c8_summary_diagnostic (env : Env) (self : CResource) (flags : Flags) (fuel : Nat)
    (errs : List Msg) (ec : Nat)
    (h : (resource_check_irods_files env self flags fuel).result = Except.ok (errs, ec)) :
    (0 < ec →
       errs.countP isAffected = (if flags.return_errors then 1 else 0)
     ∧ (resource_check_irods_files env self flags fuel).stdout.countP isAffected =
         (if flags.echo_errors then 1 else 0)
     ∧ (resource_check_irods_files env self flags fuel).log.countP isAffected =
         (if flags.log_errors then 1 else 0)
     ∧ (flags.return_errors = true → ∃ pre, errs =
         pre ++ [Msg.affectedResource self.short_id self.resource_type self.title] ∧
         pre.countP isAffected = 0))
    ∧ (ec = 0 →
       errs.countP isAffected = 0
     ∧ (resource_check_irods_files env self flags fuel).stdout.countP isAffected = 0
     ∧ (resource_check_irods_files env self flags fuel).log.countP isAffected = 0) := by
  rcases hcs : check_step12 env self flags fuel with ⟨st, ab⟩
  unfold resource_check_irods_files at h ⊢
  rw [hcs] at h ⊢
  cases ab with
  | some a => exact absurd h (by simp)
  | none =>
    dsimp only at h ⊢
    have haf : affFree st := by
      have h3 := check_step12_affFree env self flags fuel
      rw [hcs] at h3
      exact h3
    by_cases hroot : (!((get_irods_storage env self.toResource).stExists
        (rpath_of self.toResource)) : Bool) = true
    · rw [if_pos hroot] at h ⊢
      have haf3 : affFree (record flags (Msg.errRootDoesNotExist self.short_id) st) :=
        record_affFree flags _ st rfl haf
      have hpos3 : 0 < (record flags (Msg.errRootDoesNotExist self.short_id) st).ecount := by
        simp [record]
      rw [if_pos hpos3] at h ⊢
      simp only [Except.ok.injEq, Prod.mk.injEq] at h
      obtain ⟨he, hc⟩ := h
      subst he
      subst hc
      constructor
      · intro hpos
        refine ⟨?_, ?_, ?_, fun hre => ?_⟩
        · simp only [emitSummary, List.countP_append, haf3.2.2]
          split <;> simp [List.countP_cons, isAffected]
        · simp only [emitSummary, List.countP_append, haf3.1]
          split <;> simp [List.countP_cons, isAffected]
        · simp only [emitSummary, List.countP_append, haf3.2.1]
          split <;> simp [List.countP_cons, isAffected]
        · exact ⟨_, by simp [emitSummary, hre], haf3.2.2⟩
      · intro hzero
        simp [emitSummary, record] at hzero
    · rw [if_neg hroot] at h ⊢
      by_cases hcond : 0 < st.ecount
      · rw [if_pos hcond] at h ⊢
        simp only [Except.ok.injEq, Prod.mk.injEq] at h
        obtain ⟨he, hc⟩ := h
        subst he
        subst hc
        constructor
        · intro hpos
          refine ⟨?_, ?_, ?_, fun hre => ?_⟩
          · simp only [emitSummary, List.countP_append, haf.2.2]
            split <;> simp [List.countP_cons, isAffected]
          · simp only [emitSummary, List.countP_append, haf.1]
            split <;> simp [List.countP_cons, isAffected]
          · simp only [emitSummary, List.countP_append, haf.2.1]
            split <;> simp [List.countP_cons, isAffected]
          · exact ⟨_, by simp [emitSummary, hre], haf.2.2⟩
        · intro hzero
          simp only [emitSummary] at hzero
          exact absurd hcond (by omega)
      · rw [if_neg hcond] at h ⊢
        simp only [Except.ok.injEq, Prod.mk.injEq] at h
        obtain ⟨he, hc⟩ := h
        subst he
        subst hc
        exact ⟨fun hpos => absurd hpos hcond,
          fun _ => ⟨haf.2.2, haf.1, haf.2.1⟩⟩

/-- Witness for C8 at a concrete input with two errors. -/
theorem c8_summary_diagnostic_witness :
    (0 < 2 →
       errsA.countP isAffected = (if flagsA.return_errors then 1 else 0)
     ∧ (resource_check_irods_files envA resA flagsA 1).stdout.countP isAffected =
         (if flagsA.echo_errors then 1 else 0)
     ∧ (resource_check_irods_files envA resA flagsA 1).log.countP isAffected =
         (if flagsA.log_errors then 1 else 0)
     ∧ (flagsA.return_errors = true → ∃ pre, errsA =
         pre ++ [Msg.affectedResource resA.short_id resA.resource_type resA.title] ∧
         pre.countP isAffected = 0))
    ∧ ((2 : Nat) = 0 →
       errsA.countP isAffected = 0
     ∧ (resource_check_irods_files envA resA flagsA 1).stdout.countP isAffected = 0
     ∧ (resource_check_irods_files envA resA flagsA 1).log.countP isAffected = 0) :=
  c8_summary_diagnostic envA resA flagsA 1 errsA 2 (by decide)
